import Mathlib

/-!
Shallow embedding of `src/lib/network-optimizer.ts` (BusTrackerr).

JavaScript numbers are modelled as rationals (`ℚ`); `Math.round` is
`⌊x + 1/2⌋` (round half toward +∞, exact on rationals); timestamps are `ℕ`;
JS `Map` objects are insertion-ordered association lists; fallible async
operations are modelled by explicit outcome parameters; a loop that cannot
terminate is modelled by `Option` with `none` for divergence.
-/

/-- Connection quality, from `type ConnectionQuality` in the source. -/
inductive ConnectionQuality where
  | poor
  | good
  | excellent
deriving DecidableEq, Repr

/-- The `switch (effectiveType)` block of `getNetworkInfo` (lines 41-61):
base quality from the effective connection type and downlink. -/
def baseQuality (effectiveType : String) (downlink : ℚ) : ConnectionQuality :=
  if effectiveType = "slow-2g" then .poor
  else if effectiveType = "2g" then .poor
  else if effectiveType = "3g" then (if downlink < 3/2 then .poor else .good)
  else if effectiveType = "4g" then (if downlink < 5 then .good else .excellent)
  else .good

/-- The RTT adjustment of `getNetworkInfo` (lines 63-65):
`if (rtt > 2000) quality = "poor" else if (rtt > 1000 && quality !== "poor") quality = "good"`. -/
def adjustForRtt (quality : ConnectionQuality) (rtt : ℚ) : ConnectionQuality :=
  if rtt > 2000 then .poor
  else if rtt > 1000 ∧ quality ≠ .poor then .good
  else quality

/-- The classification computed by `getNetworkInfo` for a connection sample
`(effectiveType, downlink, rtt)` (the quality field of its result). -/
def getNetworkQuality (effectiveType : String) (downlink rtt : ℚ) : ConnectionQuality :=
  adjustForRtt (baseQuality effectiveType downlink) rtt

/-- JavaScript `Math.round` on a rational: round half toward positive infinity. -/
def jsRound (x : ℚ) : ℤ := ⌊x + 1/2⌋

/-- `Math.round(x * 1000000) / 1000000` — round to 6 decimal places. -/
def round6 (x : ℚ) : ℚ := (jsRound (x * 1000000) : ℚ) / 1000000

/-- A bus record as consumed by `compressBusData`: the fields the function
reads, at the types its uses give them. -/
structure BusData where
  busId : String
  lat : ℚ
  lon : ℚ
  speed : ℚ
  heading : ℚ
  status : String
  updatedAt : ℕ
deriving DecidableEq, Repr

/-- The compact record produced by `compressBusData` (lines 101-114).
`spd`/`hdg` are `Option ℤ` because the source stores `null` for falsy
speed/heading. -/
structure CompressedBus where
  id : String
  lat : ℚ
  lon : ℚ
  spd : Option ℤ
  hdg : Option ℤ
  sts : String
  upd : ℕ
deriving DecidableEq, Repr

/-- The record produced by `decompressBusData` (lines 117-129). -/
structure DecompressedBus where
  busId : String
  lat : ℚ
  lon : ℚ
  speed : Option ℤ
  heading : Option ℤ
  status : String
  updatedAt : ℕ
deriving DecidableEq, Repr

/-- `compressBusData` (lines 101-114). `now` stands for `Date.now()`, used
when `busData.updatedAt` is falsy. JS truthiness on numbers is `≠ 0`; on
strings it is `≠ ""` (so `status?.substring(0,10) || "unknown"` yields
`"unknown"` exactly when the truncation is empty). -/
def compressBusData (now : ℕ) (busData : BusData) : CompressedBus :=
  { id := busData.busId
    lat := round6 busData.lat
    lon := round6 busData.lon
    spd := if busData.speed ≠ 0 then some (jsRound busData.speed) else none
    hdg := if busData.heading ≠ 0 then some (jsRound busData.heading) else none
    sts := if busData.status.take 10 = "" then "unknown" else busData.status.take 10
    upd := if busData.updatedAt ≠ 0 then busData.updatedAt else now }

/-- `decompressBusData` (lines 117-129): reverses the field renaming only. -/
def decompressBusData (c : CompressedBus) : DecompressedBus :=
  { busId := c.id
    lat := c.lat
    lon := c.lon
    speed := c.spd
    heading := c.hdg
    status := c.sts
    updatedAt := c.upd }

/-- The bus record "after rounding the lat/lon coordinates to 6 decimal
places and the speed/heading fields to integers", as the round-trip claim
words it: the expected value of `decompress (compress r)`. -/
def roundedBus (b : BusData) : DecompressedBus :=
  { busId := b.busId
    lat := round6 b.lat
    lon := round6 b.lon
    speed := some (jsRound b.speed)
    heading := some (jsRound b.heading)
    status := b.status
    updatedAt := b.updatedAt }

/-- JS `Map.set` on an insertion-ordered association list: an existing key
is overwritten in place (keeping its position), a fresh key is appended. -/
def mapSet {α : Type} (m : List (String × α)) (k : String) (v : α) : List (String × α) :=
  if m.any (fun p => p.1 = k) then m.map (fun p => if p.1 = k then (k, v) else p)
  else m ++ [(k, v)]

/-- The key sequence of a JS `Map` (insertion order). -/
def mapKeys {α : Type} (m : List (String × α)) : List String :=
  m.map Prod.fst

/-- `interface CacheEntry<T>` (lines 177-181). -/
structure CacheEntry (α : Type) where
  data : α
  timestamp : ℕ
  ttl : ℕ
deriving DecidableEq, Repr

/-- The `cache` map of a `DataCache<T>`. -/
abbrev Cache (α : Type) : Type := List (String × CacheEntry α)

/-- `DataCache.set` (lines 191-204): if `size >= maxSize`, delete the first
inserted key (on an empty map `keys().next().value` is `undefined` and the
delete is a no-op), then `Map.set` the new entry with `timestamp = Date.now()`. -/
def cacheSet {α : Type} (maxSize : ℕ) (c : Cache α) (key : String) (data : α)
    (now : ℕ) (ttl : ℕ) : Cache α :=
  let c1 : Cache α :=
    if maxSize ≤ List.length c then
      match c with
      | [] => []
      | _ :: t => t
    else c
  mapSet c1 key ⟨data, now, ttl⟩

/-- `DataCache.get` (lines 206-217): absent if no entry; if
`Date.now() - entry.timestamp > entry.ttl` the entry is deleted and the
result is absent; otherwise the stored data, with the map unchanged. -/
def cacheGet {α : Type} (now : ℕ) (c : Cache α) (key : String) :
    Option α × Cache α :=
  match c.find? (fun p => p.1 = key) with
  | none => (none, c)
  | some kv =>
    if kv.2.ttl < now - kv.2.timestamp then
      (none, c.eraseP (fun p => p.1 = key))
    else (some kv.2.data, c)

/-- Inserting a sequence of keys into a `DataCache` via `set`, starting from
the empty cache; `f` gives the data stored under each key. -/
def insertAll {α : Type} (maxSize : ℕ) (f : String → α) (now ttl : ℕ)
    (ks : List String) : Cache α :=
  ks.foldl (fun c k => cacheSet maxSize c k (f k) now ttl) []

/-- State of a `BatchUpdateManager` (lines 368-420): the `pendingUpdates`
map and whether the `batchTimeout` field is non-null. -/
structure BatchState where
  pendingUpdates : List (String × ℕ)
  batchTimeout : Bool
deriving DecidableEq, Repr

/-- `BatchUpdateManager.addUpdate` (lines 377-388): stores the payload and
(re)arms the debounce timer. -/
def addUpdate (s : BatchState) (key : String) (data : ℕ) : BatchState :=
  { pendingUpdates := mapSet s.pendingUpdates key data
    batchTimeout := true }

/-- `BatchUpdateManager.processBatch` (lines 390-407). `sinkOk` is whether
`sendBatchUpdate` succeeds. Early return when nothing is pending (leaving
`batchTimeout` as it was); otherwise the map is snapshotted and cleared and
`batchTimeout` set to null; on sink failure every snapshotted entry is
re-`set` into the (now empty) map in order. -/
def processBatch (sinkOk : Bool) (s : BatchState) : BatchState :=
  if s.pendingUpdates.isEmpty then s
  else
    let updates := s.pendingUpdates
    if sinkOk then { pendingUpdates := [], batchTimeout := false }
    else
      { pendingUpdates := updates.foldl (fun m p => mapSet m p.1 p.2) []
        batchTimeout := false }

/-- `BatchUpdateManager.flush` (lines 414-419): only when `batchTimeout` is
non-null does it cancel the timer and call `processBatch`; otherwise it does
nothing. -/
def flush (sinkOk : Bool) (s : BatchState) : BatchState :=
  if s.batchTimeout then processBatch sinkOk s else s

/-- An entry of the `offlineQueue` (line 424): `{ key, data, timestamp }`. -/
structure QueuedItem where
  key : String
  data : ℕ
  timestamp : ℕ
deriving DecidableEq, Repr

/-- The `while (queue.length >= maxQueueSize) queue.shift()` loop of
`queueUpdate` (lines 450-452). `shift()` on an empty array leaves it empty,
so with `maxQueueSize = 0` the loop never terminates: that case is `none`. -/
def evictLoop (maxQueueSize : ℕ) : List QueuedItem → Option (List QueuedItem)
  | [] => if maxQueueSize = 0 then none else some []
  | i :: t =>
    if maxQueueSize ≤ t.length + 1 then evictLoop maxQueueSize t
    else some (i :: t)

/-- `OfflineManager.queueUpdate` (lines 446-459): a no-op while online;
while offline, evict oldest entries while at capacity, then push the new
item stamped `Date.now()`. `none` means the call never returns. -/
def queueUpdate (isOnline : Bool) (maxQueueSize : ℕ) (q : List QueuedItem)
    (key : String) (data : ℕ) (now : ℕ) : Option (List QueuedItem) :=
  if isOnline then some q
  else (evictLoop maxQueueSize q).map (fun q1 => q1 ++ [⟨key, data, now⟩])

/-- Enqueue a sequence of items while offline, threading the queue state. -/
def enqueueAll (maxQueueSize : ℕ) (items : List QueuedItem)
    (q : List QueuedItem) : Option (List QueuedItem) :=
  items.foldl
    (fun acc it => acc.bind (fun q1 => queueUpdate false maxQueueSize q1 it.key it.data it.timestamp))
    (some q)

/-- The `for (const item of queue)` loop of `processOfflineQueue`
(lines 471-477): items older than one hour (`now - timestamp > 3600000`)
are skipped; `proc` tells whether `processQueuedUpdate` succeeds on an item;
the first failing item aborts the loop (the await rejects). Returns the
list of items successfully processed and the remaining suffix from the
failing item on (empty when the loop ran to completion). -/
def replayLoop (now : ℕ) (proc : QueuedItem → Bool) :
    List QueuedItem → List QueuedItem × List QueuedItem
  | [] => ([], [])
  | i :: rest =>
    if 3600000 < now - i.timestamp then replayLoop now proc rest
    else if proc i then
      let r := replayLoop now proc rest
      (i :: r.1, r.2)
    else ([], i :: rest)

/-- `OfflineManager.processOfflineQueue` (lines 461-483): early return on an
empty queue; otherwise the queue is snapshotted and swapped to empty and the
snapshot replayed; if any item fails, `unshift(...queue)` prepends the WHOLE
snapshot back onto the (empty) current queue. Returns the resulting
`offlineQueue`. -/
def processOfflineQueue (now : ℕ) (proc : QueuedItem → Bool)
    (q : List QueuedItem) : List QueuedItem :=
  if q.isEmpty then q
  else if (replayLoop now proc q).2.isEmpty then []
  else q

/-- One step of the retry loop of `retryWithBackoff` (lines 135-149),
by recursion on the number of attempts remaining. `fn i` is the outcome of
the `i`-th invocation of `fn`; `last` models the `lastError` variable
(`none` = still uninitialized, i.e. `undefined`). Returns the overall
outcome (`Except.error` models a throw) and how many times `fn` ran. -/
def retryAttempts {E T : Type} (fn : ℕ → Except E T) (a : ℕ) :
    ℕ → Option E → Except (Option E) T × ℕ
  | 0, last => (Except.error last, 0)
  | k + 1, _ =>
    match fn a with
    | Except.ok v => (Except.ok v, 1)
    | Except.error e =>
      let r := retryAttempts fn (a + 1) k (some e)
      (r.1, r.2 + 1)

/-- `retryWithBackoff` (lines 132-152): the `for (attempt = 0; attempt <=
maxRetries; ...)` loop makes `maxRetries + 1` attempts when `maxRetries ≥ 0`
and zero attempts when `maxRetries < 0`, in which case the trailing
`throw lastError!` throws the uninitialized (`undefined`) `lastError`. -/
def retryWithBackoff {E T : Type} (fn : ℕ → Except E T) (maxRetries : ℤ) :
    Except (Option E) T × ℕ :=
  retryAttempts fn 0 (maxRetries + 1).toNat none

/-! ### Helper lemmas about the JS `Map` model -/

theorem mapKeys_cons {α : Type} (p : String × α) (m : List (String × α)) :
    mapKeys (p :: m) = p.1 :: mapKeys m := rfl

theorem mapSet_of_not_mem {α : Type} (m : List (String × α)) (k : String) (v : α)
    (h : k ∉ mapKeys m) : mapSet m k v = m ++ [(k, v)] := by
  unfold mapSet
  rw [if_neg]
  rw [Bool.not_eq_true, List.any_eq_false]
  intro p hp
  simp only [decide_eq_true_eq]
  intro hpk
  apply h
  simp only [mapKeys, List.mem_map]
  exact ⟨p, hp, hpk⟩

theorem mapKeys_mapSet_of_mem {α : Type} (m : List (String × α)) (k : String) (v : α)
    (h : k ∈ mapKeys m) : mapKeys (mapSet m k v) = mapKeys m := by
  unfold mapSet
  rw [if_pos]
  · simp only [mapKeys, List.map_map]
    apply List.map_congr_left
    intro p _
    simp only [Function.comp_def]
    by_cases hpk : p.1 = k
    · simp [hpk]
    · simp [hpk]
  · simp only [mapKeys, List.mem_map] at h
    obtain ⟨p, hp, hpk⟩ := h
    rw [List.any_eq_true]
    exact ⟨p, hp, by simp [hpk]⟩

theorem length_mapSet_of_mem {α : Type} (m : List (String × α)) (k : String) (v : α)
    (h : k ∈ mapKeys m) : (mapSet m k v).length = m.length := by
  unfold mapSet
  rw [if_pos]
  · exact List.length_map _ _
  · simp only [mapKeys, List.mem_map] at h
    obtain ⟨p, hp, hpk⟩ := h
    rw [List.any_eq_true]
    exact ⟨p, hp, by simp [hpk]⟩

theorem foldl_mapSet_eq_append {α : Type} :
    ∀ (l acc : List (String × α)), (mapKeys l).Nodup →
      (∀ k ∈ mapKeys l, k ∉ mapKeys acc) →
      l.foldl (fun m p => mapSet m p.1 p.2) acc = acc ++ l := by
  intro l
  induction l with
  | nil => intro acc _ _; simp
  | cons p rest ih =>
    intro acc hnd hdisj
    rw [mapKeys_cons] at hnd hdisj
    simp only [List.foldl_cons]
    rw [mapSet_of_not_mem acc p.1 p.2 (hdisj p.1 (List.mem_cons_self _ _))]
    rw [ih (acc ++ [p]) hnd.of_cons]
    · simp
    · intro k hk
      simp only [mapKeys, List.map_append, List.mem_append, List.map_cons, List.map_nil,
        List.mem_singleton]
      rintro (hka | hkp)
      · exact hdisj k (List.mem_cons_of_mem _ hk) hka
      · exact (List.nodup_cons.mp hnd).1 (hkp ▸ hk)

/-! ### C7 — RTT override in quality classification -/

/-- C7 counterexample. The claim says an rtt in (1000, 2000] "upgrades poor
to good only". On the code, `rtt > 1000 && quality !== "poor"` means:
a poor base quality is NOT upgraded (slow-2g at rtt 1500 stays poor), and a
non-poor quality is forced to good — including downgrading excellent
(4g at downlink 10 is excellent, yet rtt 1500 yields good). -/
theorem rtt_upgrade_claim_false :
    getNetworkQuality "slow-2g" 10 1500 = .poor ∧
    baseQuality "4g" 10 = .excellent ∧
    getNetworkQuality "4g" 10 1500 = .good := by decide

/-- C7 (amended): rtt > 2000 forces poor for every sample; rtt in
(1000, 2000] leaves a poor base classification at poor and forces any
non-poor base classification (good or excellent) to good; rtt ≤ 1000 leaves
the base classification unchanged. -/
theorem rtt_override_quality (effectiveType : String) (downlink rtt : ℚ) :
    (2000 < rtt → getNetworkQuality effectiveType downlink rtt = .poor) ∧
    (1000 < rtt → rtt ≤ 2000 →
      getNetworkQuality effectiveType downlink rtt =
        (if baseQuality effectiveType downlink = .poor then .poor else .good)) ∧
    (rtt ≤ 1000 → getNetworkQuality effectiveType downlink rtt = baseQuality effectiveType downlink) := by
  unfold getNetworkQuality adjustForRtt
  refine ⟨fun h => by rw [if_pos h], fun h1 h2 => ?_, fun h => ?_⟩
  · rw [if_neg (by exact not_lt.mpr h2)]
    by_cases hb : baseQuality effectiveType downlink = .poor
    · rw [if_neg (by simp [hb]), if_pos hb, hb]
    · rw [if_pos ⟨h1, hb⟩, if_neg hb]
  · rw [if_neg (by exact not_lt.mpr (le_trans h (by norm_num))),
      if_neg (by simp [not_lt.mpr h])]

/-- C7 witness: a concrete sample with rtt 2500 is classified poor. -/
theorem rtt_override_quality_witness :
    getNetworkQuality "3g" 10 2500 = .poor :=
  (rtt_override_quality "3g" 10 2500).1 (by norm_num)

/-! ### C8 — TTLCache expiry -/

/-- C8: if the cache holds entry `kv` under `key`, then `get` at a time with
`now - timestamp ≤ ttl` returns the stored data and leaves the cache (and in
particular the entry's timestamp) unchanged, while `get` at a time with
`now - timestamp > ttl` returns absent and deletes the entry. -/
theorem cache_ttl_expiry {α : Type} (now : ℕ) (c : Cache α) (key : String)
    (kv : String × CacheEntry α)
    (hfind : c.find? (fun p => p.1 = key) = some kv) :
    (now - kv.2.timestamp ≤ kv.2.ttl → cacheGet now c key = (some kv.2.data, c)) ∧
    (kv.2.ttl < now - kv.2.timestamp →
      cacheGet now c key = (none, c.eraseP (fun p => p.1 = key))) := by
  unfold cacheGet
  rw [hfind]
  dsimp only
  constructor
  · intro h
    rw [if_neg (not_lt.mpr h)]
  · intro h
    rw [if_pos h]

/-- C8 witness: a value set with ttl 100 at time 0 is present at time 50 and
absent (with the entry deleted) at time 150. -/
theorem cache_ttl_expiry_witness :
    cacheGet 50 [("k", (⟨7, 0, 100⟩ : CacheEntry ℕ))] "k" = (some 7, [("k", ⟨7, 0, 100⟩)]) ∧
    cacheGet 150 [("k", (⟨7, 0, 100⟩ : CacheEntry ℕ))] "k" = (none, []) := by
  constructor
  · exact (cache_ttl_expiry 50 [("k", ⟨7, 0, 100⟩)] "k" ("k", ⟨7, 0, 100⟩) (by decide)).1
      (by decide)
  · have h := (cache_ttl_expiry 150 [("k", ⟨7, 0, 100⟩)] "k" ("k", ⟨7, 0, 100⟩) (by decide)).2
      (by decide)
    rw [h]
    decide

/-! ### C6 and C10 — retryWithBackoff attempt counting -/

theorem retryAttempts_succ {E T : Type} (fn : ℕ → Except E T) (a k : ℕ) (last : Option E) :
    retryAttempts fn a (k + 1) last =
      match fn a with
      | Except.ok v => (Except.ok v, 1)
      | Except.error e =>
        ((retryAttempts fn (a + 1) k (some e)).1, (retryAttempts fn (a + 1) k (some e)).2 + 1) :=
  rfl

theorem retryAttempts_all_fail {E T : Type} (fn : ℕ → Except E T) :
    ∀ (k a : ℕ) (last : Option E) (e : E),
      (∀ i : ℕ, ∃ e2, fn i = Except.error e2) → fn (a + k) = Except.error e →
      retryAttempts fn a (k + 1) last = (Except.error (some e), k + 1) := by
  intro k
  induction k with
  | zero =>
    intro a last e _ hlast
    rw [Nat.add_zero] at hlast
    rw [retryAttempts_succ, hlast]
    rfl
  | succ n ih =>
    intro a last e hall hlast
    obtain ⟨ea, hea⟩ := hall a
    rw [retryAttempts_succ, hea]
    dsimp only
    have hrec := ih (a + 1) (some ea) e hall
      (by rw [show a + 1 + n = a + (n + 1) by omega]; exact hlast)
    rw [hrec]

theorem retryAttempts_succeeds {E T : Type} (fn : ℕ → Except E T) :
    ∀ (j k a : ℕ) (last : Option E) (v : T),
      j < k → fn (a + j) = Except.ok v →
      (∀ i : ℕ, i < j → ∃ e, fn (a + i) = Except.error e) →
      retryAttempts fn a k last = (Except.ok v, j + 1) := by
  intro j
  induction j with
  | zero =>
    intro k a last v hjk hok _
    obtain ⟨k1, rfl⟩ : ∃ k1, k = k1 + 1 := ⟨k - 1, by omega⟩
    rw [Nat.add_zero] at hok
    rw [retryAttempts_succ, hok]
  | succ n ih =>
    intro k a last v hjk hok hfail
    obtain ⟨k1, rfl⟩ : ∃ k1, k = k1 + 1 := ⟨k - 1, by omega⟩
    obtain ⟨e0, he0⟩ := hfail 0 (by omega)
    rw [Nat.add_zero] at he0
    rw [retryAttempts_succ, he0]
    dsimp only
    have hrec := ih k1 (a + 1) (some e0) v (by omega)
      (by rw [show a + 1 + n = a + (n + 1) by omega]; exact hok)
      (fun i hi => by
        obtain ⟨e, he⟩ := hfail (i + 1) (by omega)
        exact ⟨e, by rw [show a + 1 + i = a + (i + 1) by omega]; exact he⟩)
    rw [hrec]

/-- C6: for `maxRetries = m ≥ 0`, when every attempt fails `retryWithBackoff`
invokes `fn` exactly `m + 1` times and throws the final attempt's error, and
when attempt `j ≤ m` is the first to succeed its result is returned after
exactly `j + 1` invocations. -/
theorem retry_attempt_count {E T : Type} (m : ℕ) (fn : ℕ → Except E T) :
    ((∀ i : ℕ, ∃ e, fn i = Except.error e) → ∀ e, fn m = Except.error e →
      retryWithBackoff fn (m : ℤ) = (Except.error (some e), m + 1)) ∧
    (∀ j v, j ≤ m → fn j = Except.ok v →
      (∀ i : ℕ, i < j → ∃ e, fn i = Except.error e) →
      retryWithBackoff fn (m : ℤ) = (Except.ok v, j + 1)) := by
  have htn : ((m : ℤ) + 1).toNat = m + 1 := by omega
  constructor
  · intro hall e hlast
    unfold retryWithBackoff
    rw [htn]
    exact retryAttempts_all_fail fn m 0 none e hall (by simpa using hlast)
  · intro j v hj hok hfail
    unfold retryWithBackoff
    rw [htn]
    exact retryAttempts_succeeds fn j (m + 1) 0 none v (by omega) (by simpa using hok)
      (fun i hi => by simpa using hfail i hi)

/-- C6 witness: with `maxRetries = 2` and an always-failing `fn`, `fn` runs
exactly 3 times and the final error is thrown. -/
theorem retry_attempt_count_witness :
    retryWithBackoff (fun _ => (Except.error "boom" : Except String ℕ)) ((2 : ℕ) : ℤ) =
      (Except.error (some "boom"), 3) :=
  (retry_attempt_count 2 (fun _ => Except.error "boom")).1 (fun _ => ⟨"boom", rfl⟩) "boom" rfl

/-- C10: for `maxRetries < 0` the loop body is never entered: `fn` is
invoked zero times and the trailing `throw lastError!` throws the
uninitialized (`undefined`, here `none`) error value. -/
theorem retry_negative_max (maxRetries : ℤ) (h : maxRetries < 0)
    {E T : Type} (fn : ℕ → Except E T) :
    retryWithBackoff fn maxRetries = (Except.error none, 0) := by
  unfold retryWithBackoff
  rw [Int.toNat_of_nonpos (by omega)]
  rfl

/-- C10 witness: `maxRetries = -1` with a concrete `fn` gives zero
invocations and the undefined error. -/
theorem retry_negative_max_witness :
    retryWithBackoff (fun _ => (Except.ok 5 : Except String ℕ)) (-1) =
      (Except.error none, 0) :=
  retry_negative_max (-1) (by norm_num) (fun _ => Except.ok 5)

/-! ### C1 — codec round-trip -/

theorem string_take_of_le (s : String) (n : ℕ) (h : s.length ≤ n) : s.take n = s := by
  obtain ⟨l⟩ := s
  rw [String.take_eq]
  congr 1
  exact List.take_of_length_le h

/-- C1 counterexample. `compressBusData` truncates the status to 10
characters (`substring(0, 10)`), not 50: a record whose status has 12
characters (well under the claim's 50-character bound) does not round-trip —
`decompress (compress r)` carries status `"outofservi"` instead of
`"outofservice"`. -/
theorem codec_roundtrip_claim_false :
    (BusData.status ⟨"B1", 1, 2, 5, 90, "outofservice", 7⟩).length ≤ 50 ∧
    decompressBusData (compressBusData 0 ⟨"B1", 1, 2, 5, 90, "outofservice", 7⟩) ≠
      roundedBus ⟨"B1", 1, 2, 5, 90, "outofservice", 7⟩ := by
  constructor
  · decide
  · intro h
    have hs := congrArg DecompressedBus.status h
    simp only [decompressBusData, compressBusData, roundedBus] at hs
    revert hs
    decide

/-- C1 (amended): for every bus record whose status is nonempty and at most
10 characters, and whose speed, heading and updatedAt fields are truthy
(nonzero), `decompressBusData (compressBusData r)` equals `r` after rounding
lat/lon to 6 decimal places and speed/heading to integers. (The code
truncates status to 10 characters, maps falsy speed/heading to null, and
replaces a falsy updatedAt with `Date.now()`, so those cases do not
round-trip.) -/
theorem codec_roundtrip (now : ℕ) (b : BusData)
    (hlen : b.status.length ≤ 10) (hne : b.status ≠ "")
    (hspd : b.speed ≠ 0) (hhdg : b.heading ≠ 0) (hupd : b.updatedAt ≠ 0) :
    decompressBusData (compressBusData now b) = roundedBus b := by
  have ht : b.status.take 10 = b.status := string_take_of_le _ _ hlen
  simp only [decompressBusData, compressBusData, roundedBus, ht,
    if_neg (fun h => hne h), if_pos hspd, if_pos hhdg, if_pos hupd]

/-- C1 witness: a concrete record with a 6-character status and nonzero
numeric fields round-trips up to the stated rounding. -/
theorem codec_roundtrip_witness :
    decompressBusData (compressBusData 0 ⟨"B1", 1, 2, 5, 90, "active", 7⟩) =
      roundedBus ⟨"B1", 1, 2, 5, 90, "active", 7⟩ :=
  codec_roundtrip 0 ⟨"B1", 1, 2, 5, 90, "active", 7⟩
    (by decide) (by decide) (by decide) (by decide) (by decide)

/-! ### C4 and C9 — DataCache capacity and eviction -/

/-- Inserting pairwise-distinct fresh keys into an empty `DataCache` of
capacity `maxSize ≥ 1` keeps exactly the last `min (ks.length) maxSize` keys
in insertion order. -/
theorem insertAll_eq_drop {α : Type} (f : String → α) (now ttl : ℕ)
    (maxSize : ℕ) (hm : 1 ≤ maxSize) :
    ∀ ks : List String, ks.Nodup →
      insertAll maxSize f now ttl ks =
        (ks.drop (ks.length - maxSize)).map (fun k => (k, ⟨f k, now, ttl⟩)) := by
  intro ks
  induction ks using List.reverseRecOn with
  | nil => intro _; simp [insertAll]
  | append_singleton ks x ih =>
    intro hnd
    have hx : x ∉ ks := by
      have := List.disjoint_of_nodup_append hnd
      exact fun hmem => this hmem (List.mem_singleton_self x)
    have hnd1 : ks.Nodup := hnd.sublist (List.sublist_append_left ks [x])
    unfold insertAll at ih ⊢
    rw [List.foldl_append, List.foldl_cons, List.foldl_nil, ih hnd1]
    set g : String → String × CacheEntry α := fun k => (k, ⟨f k, now, ttl⟩) with hg
    set n := ks.length with hn
    have hkeys : mapKeys ((ks.drop (n - maxSize)).map g) = ks.drop (n - maxSize) := by
      simp [mapKeys, List.map_map, hg, Function.comp_def]
    have hlen : ((ks.drop (n - maxSize)).map g).length = n - (n - maxSize) := by
      simp [hn]
    by_cases hcap : maxSize ≤ n
    · have hclen : ((ks.drop (n - maxSize)).map g).length = maxSize := by omega
      unfold cacheSet
      rw [if_pos (le_of_eq hclen.symm)]
      have hne : (ks.drop (n - maxSize)).map g ≠ [] := by
        intro hnil
        rw [hnil] at hclen
        simp at hclen
        omega
      obtain ⟨hd, tl, htl⟩ := List.exists_cons_of_ne_nil hne
      rw [htl]
      dsimp only
      have htail : tl = (ks.drop (n - maxSize + 1)).map g := by
        have : ((ks.drop (n - maxSize)).map g).tail = tl := by rw [htl]; rfl
        rw [← this, ← List.map_tail, List.tail_drop]
      have hfresh : x ∉ mapKeys tl := by
        rw [htail]
        simp only [mapKeys, List.map_map]
        intro hmem
        apply hx
        have hks : x ∈ ks.drop (n - maxSize + 1) := by
          simpa [hg, Function.comp_def] using hmem
        exact List.mem_of_mem_drop hks
      rw [mapSet_of_not_mem tl x _ hfresh, htail]
      have harith : n + 1 - maxSize = n - maxSize + 1 := by omega
      rw [List.length_append, List.length_singleton, harith,
        List.drop_append_of_le_length (by omega), List.map_append]
      rfl
    · have hsmall : n < maxSize := lt_of_not_le hcap
      have hdrop : n - maxSize = 0 := by omega
      rw [hdrop, List.drop_zero]
      unfold cacheSet
      rw [if_neg (by simp [hn.symm]; omega)]
      have hfresh : x ∉ mapKeys (ks.map g) := by
        simp only [mapKeys, List.map_map]
        intro hmem
        apply hx
        simpa [hg] using hmem
      rw [mapSet_of_not_mem _ x _ hfresh]
      have : (ks ++ [x]).length - maxSize = 0 := by
        rw [List.length_append, List.length_singleton]
        omega
      rw [this, List.drop_zero, List.map_append]
      rfl

/-- C4 counterexample. The claim quantifies over every capacity; with
capacity 0 the eviction step deletes `keys().next().value` of an empty map
(`undefined`, a no-op) and then inserts, so after inserting 1 distinct key
(`c = 0`, `k = 1`) the size is 1, not 0, and the size exceeds the
capacity. -/
theorem cache_capacity_zero_false :
    (insertAll 0 (fun _ => (0 : ℕ)) 0 0 ["a"]).length = 1 ∧
    ¬ (insertAll 0 (fun _ => (0 : ℕ)) 0 0 ["a"]).length = 0 := by decide

/-- C4 (amended): for every capacity `maxSize ≥ 1` and every `k > 0`, after
inserting `maxSize + k` distinct keys into an empty `DataCache` via `set`,
the size is exactly `maxSize`, the cache holds exactly the last `maxSize`
keys in insertion order (so the single oldest-inserted entry was evicted
before each insert at capacity), the `k` oldest-inserted keys are absent,
and at no point along the way does the size exceed `maxSize`. -/
theorem cache_capacity_invariant {α : Type} (maxSize k : ℕ) (f : String → α)
    (now ttl : ℕ) (ks : List String) (hm : 1 ≤ maxSize) (hnd : ks.Nodup)
    (hlen : ks.length = maxSize + k) (hk : 0 < k) :
    (insertAll maxSize f now ttl ks).length = maxSize ∧
    insertAll maxSize f now ttl ks =
      (ks.drop k).map (fun key => (key, ⟨f key, now, ttl⟩)) ∧
    (∀ key ∈ ks.take k, key ∉ mapKeys (insertAll maxSize f now ttl ks)) ∧
    (∀ i : ℕ, (insertAll maxSize f now ttl (ks.take i)).length ≤ maxSize) := by
  have hdk : ks.length - maxSize = k := by omega
  have hchar := insertAll_eq_drop f now ttl maxSize hm ks hnd
  rw [hdk] at hchar
  refine ⟨?_, hchar, ?_, ?_⟩
  · rw [hchar]
    simp
    omega
  · intro key hmemtake
    rw [hchar]
    intro hmem
    have hmemdrop : key ∈ ks.drop k := by
      simpa [mapKeys, List.map_map, Function.comp_def] using hmem
    have hdisj : List.Disjoint (ks.take k) (ks.drop k) :=
      List.disjoint_of_nodup_append (by rw [List.take_append_drop]; exact hnd)
    exact hdisj hmemtake hmemdrop
  · intro i
    have hndi : (ks.take i).Nodup := hnd.sublist (List.take_sublist i ks)
    rw [insertAll_eq_drop f now ttl maxSize hm (ks.take i) hndi]
    simp
    omega

/-- C4 witness: capacity 2, three distinct keys — the size is 2 and the
oldest key is absent. -/
theorem cache_capacity_invariant_witness :
    (insertAll 2 (fun _ => (0 : ℕ)) 0 0 ["a", "b", "c"]).length = 2 ∧
    "a" ∉ mapKeys (insertAll 2 (fun _ => (0 : ℕ)) 0 0 ["a", "b", "c"]) := by
  have h := cache_capacity_invariant 2 1 (fun _ => (0 : ℕ)) 0 0 ["a", "b", "c"]
    (by norm_num) (by decide) (by decide) (by norm_num)
  exact ⟨h.1, h.2.2.1 "a" (by decide)⟩

/-- C9: when a `DataCache` is at capacity, `set` evicts the single
oldest-inserted entry even when the key being set is already present:
overwriting an existing non-oldest key at capacity removes the unrelated
oldest entry and leaves the size at capacity minus one, with the written key
still present. -/
theorem cache_overwrite_eviction {α : Type} (p : String × CacheEntry α)
    (rest : Cache α) (key : String) (data : α) (now ttl : ℕ)
    (hmem : key ∈ mapKeys rest) (hnd : (mapKeys (p :: rest)).Nodup) :
    cacheSet (p :: rest).length (p :: rest) key data now ttl =
      mapSet rest key ⟨data, now, ttl⟩ ∧
    (cacheSet (p :: rest).length (p :: rest) key data now ttl).length =
      (p :: rest).length - 1 ∧
    p.1 ∉ mapKeys (cacheSet (p :: rest).length (p :: rest) key data now ttl) ∧
    key ∈ mapKeys (cacheSet (p :: rest).length (p :: rest) key data now ttl) := by
  have heq : cacheSet (p :: rest).length (p :: rest) key data now ttl =
      mapSet rest key ⟨data, now, ttl⟩ := by
    unfold cacheSet
    rw [if_pos (le_refl _)]
  have hkeys : mapKeys (mapSet rest key (⟨data, now, ttl⟩ : CacheEntry α)) = mapKeys rest :=
    mapKeys_mapSet_of_mem rest key _ hmem
  rw [mapKeys_cons] at hnd
  refine ⟨heq, ?_, ?_, ?_⟩
  · rw [heq, length_mapSet_of_mem rest key _ hmem]
    simp
  · rw [heq, hkeys]
    exact (List.nodup_cons.mp hnd).1
  · rw [heq, hkeys]
    exact hmem

/-- C9 witness: a cache of capacity 2 holding keys "a" (oldest) and "b";
setting "b" again evicts "a" and leaves only the overwritten "b". -/
theorem cache_overwrite_eviction_witness :
    cacheSet 2 [("a", (⟨1, 0, 5⟩ : CacheEntry ℕ)), ("b", ⟨2, 0, 5⟩)] "b" 9 3 7 =
      [("b", ⟨9, 3, 7⟩)] ∧
    (cacheSet 2 [("a", (⟨1, 0, 5⟩ : CacheEntry ℕ)), ("b", ⟨2, 0, 5⟩)] "b" 9 3 7).length = 1 := by
  have h := cache_overwrite_eviction ("a", (⟨1, 0, 5⟩ : CacheEntry ℕ))
    [("b", ⟨2, 0, 5⟩)] "b" 9 3 7 (by decide) (by decide)
  obtain ⟨h1, h2, -, -⟩ := h
  simp only [List.length_cons, List.length_nil, Nat.zero_add, Nat.reduceAdd,
    Nat.reduceSub] at h1 h2
  refine ⟨?_, h2⟩
  rw [h1]
  decide

/-! ### C5 — offline queue gating and bound -/

theorem evictLoop_length_lt (maxQueueSize : ℕ) :
    ∀ q r : List QueuedItem, evictLoop maxQueueSize q = some r → r.length < maxQueueSize := by
  intro q
  induction q with
  | nil =>
    intro r h
    unfold evictLoop at h
    by_cases hm : maxQueueSize = 0
    · rw [if_pos hm] at h
      exact absurd h (by simp)
    · rw [if_neg hm] at h
      cases h
      simp
      omega
  | cons i t ih =>
    intro r h
    unfold evictLoop at h
    by_cases hc : maxQueueSize ≤ t.length + 1
    · rw [if_pos hc] at h
      exact ih r h
    · rw [if_neg hc] at h
      cases h
      simp
      omega

theorem evictLoop_of_le (maxQueueSize : ℕ) (hm : 1 ≤ maxQueueSize) :
    ∀ q : List QueuedItem, q.length ≤ maxQueueSize →
      evictLoop maxQueueSize q = some (q.drop (q.length + 1 - maxQueueSize)) := by
  intro q
  induction q with
  | nil =>
    intro _
    unfold evictLoop
    rw [if_neg (by omega)]
    simp
  | cons i t ih =>
    intro hle
    simp only [List.length_cons] at hle
    unfold evictLoop
    by_cases hc : maxQueueSize ≤ t.length + 1
    · rw [if_pos hc]
      have hm2 : t.length + 1 = maxQueueSize := by omega
      rw [ih (by omega)]
      have h1 : t.length + 1 - maxQueueSize = 0 := by omega
      have h2 : (i :: t).length + 1 - maxQueueSize = 1 := by simp; omega
      rw [h1, h2, List.drop_zero]
      rfl
    · rw [if_neg hc]
      have h2 : (i :: t).length + 1 - maxQueueSize = 0 := by simp; omega
      rw [h2, List.drop_zero]

/-- Enqueuing while offline, starting from an empty queue with capacity
`maxQueueSize ≥ 1`, keeps exactly the last `min (items.length) maxQueueSize`
items in arrival order. -/
theorem enqueueAll_eq_drop (maxQueueSize : ℕ) (hm : 1 ≤ maxQueueSize) :
    ∀ items : List QueuedItem,
      enqueueAll maxQueueSize items [] =
        some (items.drop (items.length - maxQueueSize)) := by
  intro items
  induction items using List.reverseRecOn with
  | nil => simp [enqueueAll]
  | append_singleton items x ih =>
    unfold enqueueAll at ih ⊢
    rw [List.foldl_append, List.foldl_cons, List.foldl_nil, ih]
    set n := items.length with hn
    have hlen : (items.drop (n - maxQueueSize)).length = n - (n - maxQueueSize) := by
      simp [hn]
    rw [Option.some_bind]
    unfold queueUpdate
    rw [if_neg (by simp)]
    rw [evictLoop_of_le maxQueueSize hm _ (by omega)]
    rw [Option.map_some']
    congr 1
    rw [hlen]
    have hax : (items ++ [x]).length = n + 1 := by
      rw [List.length_append, List.length_singleton, ← hn]
    by_cases hcap : maxQueueSize ≤ n
    · have h1 : n - (n - maxQueueSize) + 1 - maxQueueSize = 1 := by omega
      have h2 : (items ++ [x]).length - maxQueueSize = n - maxQueueSize + 1 := by
        rw [hax]; omega
      rw [h1, h2, List.drop_drop,
        List.drop_append_of_le_length (by omega)]
    · have h1 : n - (n - maxQueueSize) + 1 - maxQueueSize = 0 := by omega
      have h2 : (items ++ [x]).length - maxQueueSize = 0 := by rw [hax]; omega
      have h3 : n - maxQueueSize = 0 := by omega
      rw [h1, h2, h3, List.drop_zero, List.drop_zero, List.drop_zero]

/-- C5 counterexample. The claim quantifies over the configured capacity;
with `maxQueueSize = 0` the `while (length >= maxQueueSize) shift()` loop
never terminates (shift on an empty array makes no progress), so enqueuing
while offline never returns a queue at all — modelled as `none` — and
"size() == capacity" never comes to hold. -/
theorem offline_queue_zero_capacity_false :
    queueUpdate false 0 [] "a" 0 0 = none ∧
    enqueueAll 0 [⟨"a", 0, 0⟩] [] = none := by decide

/-- C5 (amended): `queueUpdate` is a no-op while online; for every capacity
`maxQueueSize ≥ 1`, enqueuing `maxQueueSize + 1` pairwise-distinct items
while offline from an empty queue terminates with exactly the last
`maxQueueSize` items (so the first-enqueued item is absent); and whenever an
offline enqueue terminates its resulting queue has at most `maxQueueSize`
entries. -/
theorem offline_queue_bound (maxQueueSize : ℕ) (hm : 1 ≤ maxQueueSize)
    (items : List QueuedItem) (q : List QueuedItem) (key : String)
    (data now : ℕ) (hlen : items.length = maxQueueSize + 1)
    (hnd : items.Nodup) :
    queueUpdate true maxQueueSize q key data now = some q ∧
    enqueueAll maxQueueSize items [] = some (items.drop 1) ∧
    (∀ i0 ∈ items.take 1, i0 ∉ items.drop 1) ∧
    (∀ q1 r, queueUpdate false maxQueueSize q1 key data now = some r →
      r.length ≤ maxQueueSize) := by
  refine ⟨by unfold queueUpdate; rw [if_pos rfl], ?_, ?_, ?_⟩
  · rw [enqueueAll_eq_drop maxQueueSize hm items, hlen,
      show maxQueueSize + 1 - maxQueueSize = 1 by omega]
  · intro i0 hmem0 hmem1
    have hdisj : List.Disjoint (items.take 1) (items.drop 1) :=
      List.disjoint_of_nodup_append (by rw [List.take_append_drop]; exact hnd)
    exact hdisj hmem0 hmem1
  · intro q1 r hr
    unfold queueUpdate at hr
    rw [if_neg (by simp)] at hr
    cases hev : evictLoop maxQueueSize q1 with
    | none => rw [hev] at hr; exact absurd hr (by simp)
    | some q2 =>
      rw [hev] at hr
      rw [Option.map_some'] at hr
      cases hr
      have := evictLoop_length_lt maxQueueSize q1 q2 hev
      simp
      omega

/-- C5 witness: capacity 1, two distinct items — the result holds only the
second item and the first is absent. -/
theorem offline_queue_bound_witness :
    enqueueAll 1 [⟨"a", 0, 0⟩, ⟨"b", 1, 0⟩] [] = some [⟨"b", 1, 0⟩] ∧
    (⟨"a", 0, 0⟩ : QueuedItem) ∉ ([⟨"b", 1, 0⟩] : List QueuedItem) := by
  have h := offline_queue_bound 1 (by norm_num) [⟨"a", 0, 0⟩, ⟨"b", 1, 0⟩] [] "k" 0 0
    (by decide) (by decide)
  exact ⟨h.2.1, h.2.2.1 ⟨"a", 0, 0⟩ (by decide)⟩

/-! ### C2 — offline queue replay on reconnect -/

theorem replayLoop_all_ok (now : ℕ) (proc : QueuedItem → Bool) :
    ∀ q : List QueuedItem,
      (∀ i ∈ q, now - i.timestamp ≤ 3600000 → proc i = true) →
      (replayLoop now proc q).2 = [] := by
  intro q
  induction q with
  | nil => intro _; rfl
  | cons i rest ih =>
    intro h
    unfold replayLoop
    by_cases hst : 3600000 < now - i.timestamp
    · rw [if_pos hst]
      exact ih (fun j hj => h j (List.mem_cons_of_mem _ hj))
    · rw [if_neg hst]
      have hp : proc i = true := h i (List.mem_cons_self _ _) (by omega)
      rw [if_pos hp]
      exact ih (fun j hj => h j (List.mem_cons_of_mem _ hj))

theorem replayLoop_fails (now : ℕ) (proc : QueuedItem → Bool)
    (bad : QueuedItem) (q2 : List QueuedItem)
    (hfresh : now - bad.timestamp ≤ 3600000) (hbad : proc bad = false) :
    ∀ q1 : List QueuedItem,
      (∀ j ∈ q1, now - j.timestamp ≤ 3600000 → proc j = true) →
      (replayLoop now proc (q1 ++ bad :: q2)).2 = bad :: q2 := by
  intro q1
  induction q1 with
  | nil =>
    intro _
    rw [List.nil_append]
    unfold replayLoop
    rw [if_neg (by omega), if_neg (by simp [hbad])]
  | cons j rest ih =>
    intro h
    rw [List.cons_append]
    unfold replayLoop
    by_cases hst : 3600000 < now - j.timestamp
    · rw [if_pos hst]
      exact ih (fun j2 hj2 => h j2 (List.mem_cons_of_mem _ hj2))
    · rw [if_neg hst]
      have hp : proc j = true := h j (List.mem_cons_self _ _) (by omega)
      rw [if_pos hp]
      exact ih (fun j2 hj2 => h j2 (List.mem_cons_of_mem _ hj2))

/-- C2 counterexample. With queue `[a, b]` where processing `a` succeeds and
processing `b` fails, the failure path `offlineQueue.unshift(...queue)`
prepends the WHOLE snapshot — including the already-successfully-processed
`a` — back onto the queue, so the resulting queue is `[a, b]`, not `[b]` as
the claim states; and on the next reconnect `a` is replayed a second time
after its earlier successful replay (the first components below list the
successfully processed items of each run: both contain `a`). -/
theorem offline_requeue_claim_false :
    (replayLoop 0 (fun i => i.key != "b") [⟨"a", 0, 0⟩, ⟨"b", 1, 0⟩]).1 = [⟨"a", 0, 0⟩] ∧
    processOfflineQueue 0 (fun i => i.key != "b") [⟨"a", 0, 0⟩, ⟨"b", 1, 0⟩] =
      [⟨"a", 0, 0⟩, ⟨"b", 1, 0⟩] ∧
    (replayLoop 0 (fun i => i.key != "b")
      (processOfflineQueue 0 (fun i => i.key != "b") [⟨"a", 0, 0⟩, ⟨"b", 1, 0⟩])).1 =
      [⟨"a", 0, 0⟩] := by decide

/-- C2 (amended): on the online transition `processOfflineQueue` swaps the
queue to empty and processes the prior contents sequentially; entries older
than 1 hour are skipped without replay; if every fresh entry processes
successfully the resulting queue is empty; but if processing fails at some
entry (all earlier fresh entries having succeeded), the ENTIRE prior
snapshot — successfully processed entries included — is prepended back onto
the now-current queue in its original order, so an entry replayed
successfully before a later failure in the same batch will be replayed
again on a later reconnect. -/
theorem offline_replay_behavior (now : ℕ) (proc : QueuedItem → Bool)
    (q : List QueuedItem) :
    (q = [] → processOfflineQueue now proc q = q) ∧
    ((∀ i ∈ q, now - i.timestamp ≤ 3600000 → proc i = true) →
      processOfflineQueue now proc q = []) ∧
    (∀ q1 bad q2, q = q1 ++ bad :: q2 →
      (∀ j ∈ q1, now - j.timestamp ≤ 3600000 → proc j = true) →
      now - bad.timestamp ≤ 3600000 → proc bad = false →
      processOfflineQueue now proc q = q) := by
  refine ⟨?_, ?_, ?_⟩
  · intro hq
    subst hq
    rfl
  · intro hall
    unfold processOfflineQueue
    by_cases hq : q.isEmpty
    · rw [if_pos hq]
      exact List.isEmpty_iff.mp hq
    · rw [if_neg hq, if_pos (by rw [replayLoop_all_ok now proc q hall]; rfl)]
  · intro q1 bad q2 hsplit hok hfresh hbad
    unfold processOfflineQueue
    rw [if_neg (by subst hsplit; simp)]
    rw [if_neg]
    rw [hsplit, replayLoop_fails now proc bad q2 hfresh hbad q1 hok]
    simp

/-- C2 witness: a single fresh succeeding entry is replayed and the queue
ends empty. -/
theorem offline_replay_behavior_witness :
    processOfflineQueue 0 (fun _ => true) [⟨"a", 0, 0⟩] = [] :=
  (offline_replay_behavior 0 (fun _ => true) [⟨"a", 0, 0⟩]).2.1 (by decide)

/-! ### C3 — BatchWriteAggregator flush and failure requeue -/

/-- C3 counterexample. Reachable state: `addUpdate` arms the timer, the
timer fires, the sink fails — the failed entries are re-added to the pending
map and `batchTimeout` is null. In that state `flush()` does nothing (for
either sink outcome): it does NOT process the pending entries, contradicting
"for every state of the pending map, flush() immediately processes any
pending entries". -/
theorem batch_flush_claim_false :
    (processBatch false (addUpdate ⟨[], false⟩ "a" 1)).pendingUpdates = [("a", 1)] ∧
    (processBatch false (addUpdate ⟨[], false⟩ "a" 1)).batchTimeout = false ∧
    flush true (processBatch false (addUpdate ⟨[], false⟩ "a" 1)) =
      processBatch false (addUpdate ⟨[], false⟩ "a" 1) ∧
    flush false (processBatch false (addUpdate ⟨[], false⟩ "a" 1)) =
      processBatch false (addUpdate ⟨[], false⟩ "a" 1) := by decide

/-- C3 (amended): when the debounce timer is armed, `flush()` cancels it and
immediately processes the pending entries: on sink success the pending map
empties; on sink failure all entries of the failed batch are re-added to the
pending map in their original order with the timer cleared, and a later
batch processing run (a timer fire scheduled by a subsequent `addUpdate`,
or a `flush()` while a timer is armed) retries exactly those entries. When
no timer is armed, `flush()` is a no-op even if entries are pending. -/
theorem batch_flush_behavior (s : BatchState)
    (hnd : (mapKeys s.pendingUpdates).Nodup) :
    (s.batchTimeout = true → s.pendingUpdates ≠ [] →
      flush true s = ⟨[], false⟩ ∧
      flush false s = ⟨s.pendingUpdates, false⟩) ∧
    (s.batchTimeout = false → ∀ sinkOk, flush sinkOk s = s) ∧
    (s.pendingUpdates ≠ [] →
      processBatch true ⟨s.pendingUpdates, false⟩ = ⟨[], false⟩) := by
  have hre : s.pendingUpdates.foldl (fun m p => mapSet m p.1 p.2) [] = s.pendingUpdates :=
    foldl_mapSet_eq_append s.pendingUpdates [] hnd (by simp [mapKeys])
  refine ⟨?_, ?_, ?_⟩
  · intro ht hne
    have hemp : s.pendingUpdates.isEmpty = false := by
      rw [List.isEmpty_eq_false]
      exact hne
    constructor
    · unfold flush processBatch
      rw [if_pos ht, if_neg (by rw [hemp]; simp)]
      rw [if_pos rfl]
    · unfold flush processBatch
      rw [if_pos ht, if_neg (by rw [hemp]; simp)]
      rw [if_neg (by simp)]
      rw [hre]
  · intro ht sinkOk
    unfold flush
    rw [ht]
    rfl
  · intro hne
    have hemp : s.pendingUpdates.isEmpty = false := by
      rw [List.isEmpty_eq_false]
      exact hne
    unfold processBatch
    rw [if_neg (by rw [hemp]; simp)]
    rw [if_pos rfl]

/-- C3 witness: with one pending entry and the timer armed, flush with a
succeeding sink empties the batch, and flush with a failing sink re-adds the
entry with the timer cleared. -/
theorem batch_flush_behavior_witness :
    flush true ⟨[("a", 1)], true⟩ = ⟨[], false⟩ ∧
    flush false ⟨[("a", 1)], true⟩ = ⟨[("a", 1)], false⟩ := by
  have h := (batch_flush_behavior ⟨[("a", 1)], true⟩ (by decide)).1 rfl (by decide)
  exact h
